import Mathlib

/-!
Verification of the boundary data-exchange contract of the parquet-viewer
repository.  The repository's visible source is the C-linkage header
`src/Frameworks/parquet_viewer.h`, which declares the exchange structures
(`CKeyValue`, `CFileMetadata`, `CField`, `CSchema`, `CRecordBatch`,
`CRecordBatchArray`) and eight operations (four readers, three release
routines, one error query).  The implementation behind the header is not part
of the visible fragment, so the operations below are modelled from the
specification (spec.md §3, §4.1, §7, §8, §9), faithful to its words.
-/

namespace ParquetViewer

/-- Key-value pair structure, from `CKeyValue` in `parquet_viewer.h`:
two owned text strings. -/
structure CKeyValue where
  key : String
  value : String
deriving DecidableEq

/-- File metadata structure, from `CFileMetadata` in `parquet_viewer.h`.
`created_by` is `NULL` if not available, modelled as `Option`;
`key_value_metadata` with its `key_value_count` is modelled as a list
together with the count field recorded at the boundary. -/
structure CFileMetadata where
  file_size : Nat
  total_records : Int
  total_fields : Nat
  total_row_groups : Nat
  version : Int
  created_by : Option String
  key_value_metadata : List CKeyValue
  key_value_count : Nat
deriving DecidableEq

/-- Schema field structure, from `CField` in `parquet_viewer.h`.  The header
declares `nullable` as a full-width C `int` (comment: 1 for nullable, 0 for
not nullable), so it is modelled as `Int`, not `Bool`. -/
structure CField where
  name : String
  data_type : String
  nullable : Int
deriving DecidableEq

/-- Schema structure, from `CSchema` in `parquet_viewer.h`: an array of
fields plus its length field `num_fields`. -/
structure CSchema where
  fields : List CField
  num_fields : Nat
deriving DecidableEq

/-- Record batch structure, from `CRecordBatch` in `parquet_viewer.h`.
The spec (§1, §9) keeps the JSON payload opaque and only constrains what it
parses to (§3: exactly `num_rows` records of `num_columns` fields each), so
the `json` field is modelled by its parsed content: the sequence of decoded
records, each record a sequence of textual cell values. -/
structure CRecordBatch where
  json : List (List String)
  num_rows : Nat
  num_columns : Nat
deriving DecidableEq

/-- Array of record batches, from `CRecordBatchArray` in `parquet_viewer.h`:
the batch sequence plus its length field `count`. -/
structure CRecordBatchArray where
  batches : List CRecordBatch
  count : Nat
deriving DecidableEq

/-- Modelled from the spec: the missing implementation reads files through an
unseen columnar reading engine (spec §1, §6).  A logical schema field of such
a file: name, textual data-type descriptor, and a nullability flag (spec §3,
Field). -/
structure PField where
  name : String
  data_type : String
  nullable : Bool
deriving DecidableEq

/-- Modelled from the spec: a valid columnar file as the external reader
presents it (the reader itself is absent from the fragment).  It carries the
logical schema in column order, the rows in file order — each row one textual
cell per schema field, recorded by `rows_wf` — and the file-level metadata of
spec §3 (byte size, row-group count, format version, optional creator,
key/value pairs in source order). -/
structure ParquetFile where
  schema : List PField
  rows : List (List String)
  file_size : Nat
  total_row_groups : Nat
  version : Int
  created_by : Option String
  key_value : List CKeyValue
  rows_wf : ∀ r ∈ rows, r.length = schema.length

/-- Modelled from the spec: the file system as observed through the absent
external reader.  A path maps to a parsed columnar file, or to `none` when
the path cannot be opened, is not a recognized/parseable columnar file, or
the reader reports a structural problem (spec §4.1 failure conditions). -/
def FileSystem : Type := String → Option ParquetFile

/-- Modelled from the spec: a human-readable `ReadError` description placed
in the error slot on failure (spec §7: a single error kind, distinguished
only by text). -/
def readErrorMsg (what : String) (file_path : String) : String :=
  "ReadError: " ++ what ++ ": " ++ file_path

/-- Conversion of a logical field to the boundary `CField`: the nullability
boolean becomes the header's `int` flag, 1 for nullable and 0 for not
nullable. -/
def mkCField (f : PField) : CField :=
  { name := f.name, data_type := f.data_type,
    nullable := if f.nullable then 1 else 0 }

/-- Conversion of a logical schema to the boundary `CSchema` snapshot:
fields in column order, `num_fields` set to the sequence length (spec §3). -/
def mkCSchema (s : List PField) : CSchema :=
  { fields := s.map mkCField, num_fields := s.length }

/-- Conversion of a file to the boundary `CFileMetadata` snapshot (spec §3,
§4.1 read_metadata): counts derived from the file, key/value pairs in
original order with `key_value_count` equal to their number. -/
def mkCFileMetadata (f : ParquetFile) : CFileMetadata :=
  { file_size := f.file_size,
    total_records := (f.rows.length : Int),
    total_fields := f.schema.length,
    total_row_groups := f.total_row_groups,
    version := f.version,
    created_by := f.created_by,
    key_value_metadata := f.key_value,
    key_value_count := f.key_value.length }

/-- Modelled from the spec: `parquet_viewer_read_schema` (header lines
67–74, spec §4.1).  The absent implementation opens the file via the external
reader and returns an owned `CSchema` snapshot; on failure it returns absent
and updates the error slot.  The state threaded through is the process-wide
last-error slot; success clears it (one of the two behaviors the spec leaves
open in §9, fixed here). -/
def parquet_viewer_read_schema (fs : FileSystem) (file_path : String)
    (err : Option String) : Option CSchema × Option String :=
  match fs file_path with
  | none => (none, some (readErrorMsg "cannot open or parse file" file_path))
  | some f => (some (mkCSchema f.schema), none)

/-- Modelled from the spec: `parquet_viewer_read_metadata` (header lines
76–82, spec §4.1).  Same input and failure contract as schema reading,
returning the file-level statistics snapshot. -/
def parquet_viewer_read_metadata (fs : FileSystem) (file_path : String)
    (err : Option String) : Option CFileMetadata × Option String :=
  match fs file_path with
  | none => (none, some (readErrorMsg "cannot open or parse file" file_path))
  | some f => (some (mkCFileMetadata f), none)

/-- Modelled from the spec: the implementation-defined default batching
granularity selected by `batch_size = 0` (spec §9 open question, treated as a
fixed constant as the spec directs). -/
def defaultBatchSize : Nat := 1024

/-- Effective batch size: `batch_size = 0` selects the implementation-defined
default (spec §4.1 read_data). -/
def effectiveBatchSize (batch_size : Nat) : Nat :=
  if batch_size = 0 then defaultBatchSize else batch_size

/-- Row-limit application: `limit = 0` means unbounded, otherwise at most
`limit` rows are produced, in file order (spec §4.1 read_data). -/
def limitRows (limit : Nat) (rows : List (List String)) : List (List String) :=
  if limit = 0 then rows else rows.take limit

/-- Grouping of a row sequence into consecutive chunks of at most `B`
elements, in order; every chunk but possibly the last is full (spec §4.1:
batches of at most `batch_size` rows each, the final batch may be shorter). -/
def chunkList {α : Type} (B : Nat) : List α → List (List α)
  | [] => []
  | x :: xs => (x :: xs.take (B - 1)) :: chunkList B (xs.drop (B - 1))
termination_by l => l.length
decreasing_by
  simp only [List.length_drop, List.length_cons]
  omega

/-- Packaging of one chunk of rows as a boundary `CRecordBatch`: the payload
parses back to the chunk, `num_rows` is the chunk length, `num_columns` the
width every record has. -/
def mkCRecordBatch (ncols : Nat) (c : List (List String)) : CRecordBatch :=
  { json := c, num_rows := c.length, num_columns := ncols }

/-- Modelled from the spec: `parquet_viewer_read_data` (header lines 85–94,
spec §4.1).  The absent implementation reads rows in file order, stops once
`limit` rows have been produced (truncating the boundary batch), groups them
into batches of at most the effective batch size, and returns the ordered
batch sequence; on failure it returns absent and updates the error slot. -/
def parquet_viewer_read_data (fs : FileSystem) (file_path : String)
    (batch_size limit : Nat) (err : Option String) :
    Option CRecordBatchArray × Option String :=
  match fs file_path with
  | none => (none, some (readErrorMsg "cannot open or parse file" file_path))
  | some f =>
    let chunks := chunkList (effectiveBatchSize batch_size)
      (limitRows limit f.rows)
    (some { batches := chunks.map (mkCRecordBatch f.schema.length),
            count := chunks.length }, none)

/-- Projection of one row to the cells named by `column_indices`, in the
order given by that index list (spec §4.1 read_data_with_projection); each
index selects the 0-based position in the file's column order. -/
def projectRow (column_indices : List Nat) (r : List String) : List String :=
  column_indices.map (fun i => r.getD i "")

/-- Modelled from the spec: `parquet_viewer_read_data_with_projection`
(header lines 96–107, spec §4.1).  The absent implementation validates every
index against `[0, num_fields)` before any row decoding, so an invalid index
yields absent plus an error and never a partial array; otherwise it behaves
as `parquet_viewer_read_data` with each batch holding only the projected
columns.  The C `column_count` argument is the length of the index list. -/
def parquet_viewer_read_data_with_projection (fs : FileSystem)
    (file_path : String) (column_indices : List Nat) (batch_size limit : Nat)
    (err : Option String) : Option CRecordBatchArray × Option String :=
  match fs file_path with
  | none => (none, some (readErrorMsg "cannot open or parse file" file_path))
  | some f =>
    if column_indices.all (fun i => i < f.schema.length) then
      let chunks := chunkList (effectiveBatchSize batch_size)
        ((limitRows limit f.rows).map (projectRow column_indices))
      (some { batches := chunks.map (mkCRecordBatch column_indices.length),
              count := chunks.length }, none)
    else
      (none,
       some (readErrorMsg "projection index out of range for schema" file_path))

/-- Modelled from the spec: the observable state a release operation acts on
(spec §3 ownership rule, §4.1 free operations): the collection of live
boundary handles of one kind together with the process-wide error slot,
which release operations never touch. -/
structure LiveState (α : Type) where
  live : List α
  err : Option String
deriving DecidableEq

/-- Modelled from the spec: `parquet_viewer_free_schema` (header lines
109–114, spec §4.1).  The absent implementation releases a previously
returned schema and everything it owns; an absent/null handle is a no-op. -/
def parquet_viewer_free_schema (h : Option CSchema)
    (st : LiveState CSchema) : LiveState CSchema :=
  match h with
  | none => st
  | some s => { st with live := st.live.erase s }

/-- Modelled from the spec: `parquet_viewer_free_metadata` (header lines
116–121, spec §4.1).  Same contract for metadata handles. -/
def parquet_viewer_free_metadata (h : Option CFileMetadata)
    (st : LiveState CFileMetadata) : LiveState CFileMetadata :=
  match h with
  | none => st
  | some m => { st with live := st.live.erase m }

/-- Modelled from the spec: `parquet_viewer_free_data` (header lines
123–128, spec §4.1).  Same contract for record-batch-array handles. -/
def parquet_viewer_free_data (h : Option CRecordBatchArray)
    (st : LiveState CRecordBatchArray) : LiveState CRecordBatchArray :=
  match h with
  | none => st
  | some d => { st with live := st.live.erase d }

/-- Modelled from the spec: `parquet_viewer_get_last_error` (header lines
130–136, spec §4.1): returns the content of the process-wide error slot, a
description of the most recent failure, or absent when none is recorded. -/
def parquet_viewer_get_last_error (err : Option String) : Option String :=
  err

/-! Auxiliary lemmas about the chunking of row sequences. -/

/-- Unfolding equation of `chunkList` on the empty list. -/
theorem chunkList_nil {α : Type} (B : Nat) : chunkList B ([] : List α) = [] := by
  rw [chunkList]

/-- Unfolding equation of `chunkList` on a nonempty list. -/
theorem chunkList_cons {α : Type} (B : Nat) (x : α) (xs : List α) :
    chunkList B (x :: xs) =
      (x :: xs.take (B - 1)) :: chunkList B (xs.drop (B - 1)) := by
  rw [chunkList]

/-- Fuel-indexed form: the chunk lengths of a chunked list sum back to the
length of the list. -/
theorem chunkList_sum_length_aux {α : Type} (B : Nat) :
    ∀ (n : Nat) (l : List α), l.length ≤ n →
      ((chunkList B l).map List.length).sum = l.length := by
  intro n
  induction n with
  | zero =>
    intro l h
    have hl : l = [] := List.eq_nil_of_length_eq_zero (Nat.le_zero.mp h)
    subst hl
    simp [chunkList_nil]
  | succ n ih =>
    intro l h
    match l with
    | [] => simp [chunkList_nil]
    | x :: xs =>
      rw [chunkList_cons, List.map_cons, List.sum_cons]
      have hd : (xs.drop (B - 1)).length ≤ n := by
        simp only [List.length_drop]
        simp only [List.length_cons] at h
        omega
      rw [ih (xs.drop (B - 1)) hd]
      simp only [List.length_cons, List.length_take, List.length_drop]
      omega

/-- The chunk lengths of a chunked list sum back to the list's length. -/
theorem chunkList_sum_length {α : Type} (B : Nat) (l : List α) :
    ((chunkList B l).map List.length).sum = l.length :=
  chunkList_sum_length_aux B l.length l le_rfl

/-- Fuel-indexed form: joining the chunks restores the original list. -/
theorem chunkList_join_aux {α : Type} (B : Nat) :
    ∀ (n : Nat) (l : List α), l.length ≤ n → (chunkList B l).flatten = l := by
  intro n
  induction n with
  | zero =>
    intro l h
    have hl : l = [] := List.eq_nil_of_length_eq_zero (Nat.le_zero.mp h)
    subst hl
    simp [chunkList_nil]
  | succ n ih =>
    intro l h
    match l with
    | [] => simp [chunkList_nil]
    | x :: xs =>
      rw [chunkList_cons, List.flatten_cons]
      have hd : (xs.drop (B - 1)).length ≤ n := by
        simp only [List.length_drop]
        simp only [List.length_cons] at h
        omega
      rw [ih (xs.drop (B - 1)) hd]
      simp [List.take_append_drop]

/-- Joining the chunks restores the original list: chunking preserves the
rows and their file order. -/
theorem chunkList_join {α : Type} (B : Nat) (l : List α) :
    (chunkList B l).flatten = l :=
  chunkList_join_aux B l.length l le_rfl

/-- Every element of a chunk is an element of the chunked list. -/
theorem mem_of_mem_chunkList {α : Type} {B : Nat} {l c : List α} {x : α}
    (hc : c ∈ chunkList B l) (hx : x ∈ c) : x ∈ l := by
  have : x ∈ (chunkList B l).flatten := List.mem_flatten.mpr ⟨c, hc, hx⟩
  rwa [chunkList_join] at this

/-- Fuel-indexed form: with a positive chunk size, every chunk holds at most
`B` elements. -/
theorem chunkList_length_le_aux {α : Type} {B : Nat} (hB : 0 < B) :
    ∀ (n : Nat) (l : List α), l.length ≤ n →
      ∀ c ∈ chunkList B l, c.length ≤ B := by
  intro n
  induction n with
  | zero =>
    intro l h
    have hl : l = [] := List.eq_nil_of_length_eq_zero (Nat.le_zero.mp h)
    subst hl
    simp [chunkList_nil]
  | succ n ih =>
    intro l h c hc
    match l with
    | [] => simp [chunkList_nil] at hc
    | x :: xs =>
      rw [chunkList_cons] at hc
      rcases List.mem_cons.mp hc with h0 | hrest
      · subst h0
        simp only [List.length_cons, List.length_take]
        omega
      · have hd : (xs.drop (B - 1)).length ≤ n := by
          simp only [List.length_drop]
          simp only [List.length_cons] at h
          omega
        exact ih (xs.drop (B - 1)) hd c hrest

/-- With a positive chunk size, every chunk holds at most `B` elements. -/
theorem chunkList_length_le {α : Type} {B : Nat} (hB : 0 < B) (l : List α) :
    ∀ c ∈ chunkList B l, c.length ≤ B :=
  chunkList_length_le_aux hB l.length l le_rfl

/-- A chunking is empty exactly when the chunked list is empty. -/
theorem chunkList_eq_nil_iff {α : Type} (B : Nat) (l : List α) :
    chunkList B l = [] ↔ l = [] := by
  match l with
  | [] => simp [chunkList_nil]
  | x :: xs => simp [chunkList_cons]

/-- Fuel-indexed form: with a positive chunk size, every chunk before the
last one holds exactly `B` elements. -/
theorem chunkList_get_full_aux {α : Type} {B : Nat} (hB : 0 < B) :
    ∀ (n : Nat) (l : List α), l.length ≤ n →
      ∀ (i : Nat) (c : List α), i + 1 < (chunkList B l).length →
        (chunkList B l).get? i = some c → c.length = B := by
  intro n
  induction n with
  | zero =>
    intro l h
    have hl : l = [] := List.eq_nil_of_length_eq_zero (Nat.le_zero.mp h)
    subst hl
    intro i c hi
    simp [chunkList_nil] at hi
  | succ n ih =>
    intro l h i c hi hget
    match l with
    | [] => simp [chunkList_nil] at hi
    | x :: xs =>
      rw [chunkList_cons] at hi hget
      match i with
      | 0 =>
        simp only [List.get?_cons_zero, Option.some.injEq] at hget
        have hrest : chunkList B (xs.drop (B - 1)) ≠ [] := by
          intro hnil
          rw [hnil] at hi
          simp at hi
        have hdrop : xs.drop (B - 1) ≠ [] :=
          fun hnil => hrest (by rw [hnil, chunkList_nil])
        have hlen : B - 1 < xs.length := by
          by_contra hcon
          exact hdrop (List.drop_eq_nil_of_le (Nat.le_of_not_lt hcon))
        subst hget
        simp only [List.length_cons, List.length_take]
        omega
      | i + 1 =>
        simp only [List.get?_cons_succ] at hget
        simp only [List.length_cons] at hi
        have hd : (xs.drop (B - 1)).length ≤ n := by
          simp only [List.length_drop]
          simp only [List.length_cons] at h
          omega
        exact ih (xs.drop (B - 1)) hd i c (by omega) hget

/-- With a positive chunk size, every chunk before the last one holds exactly
`B` elements: only the final chunk may be shorter. -/
theorem chunkList_get_full {α : Type} {B : Nat} (hB : 0 < B) (l : List α)
    (i : Nat) (c : List α) (hi : i + 1 < (chunkList B l).length)
    (hget : (chunkList B l).get? i = some c) : c.length = B :=
  chunkList_get_full_aux hB l.length l le_rfl i c hi hget

/-- Fuel-indexed form: chunking commutes with mapping a function over the
elements. -/
theorem chunkList_map_aux {α β : Type} (B : Nat) (g : α → β) :
    ∀ (n : Nat) (l : List α), l.length ≤ n →
      chunkList B (l.map g) = (chunkList B l).map (List.map g) := by
  intro n
  induction n with
  | zero =>
    intro l h
    have hl : l = [] := List.eq_nil_of_length_eq_zero (Nat.le_zero.mp h)
    subst hl
    simp [chunkList_nil]
  | succ n ih =>
    intro l h
    match l with
    | [] => simp [chunkList_nil]
    | x :: xs =>
      rw [List.map_cons, chunkList_cons, chunkList_cons, List.map_cons]
      have hd : (xs.drop (B - 1)).length ≤ n := by
        simp only [List.length_drop]
        simp only [List.length_cons] at h
        omega
      rw [← List.map_take, ← List.map_drop, ih (xs.drop (B - 1)) hd,
        List.map_cons]

/-- Chunking commutes with mapping a function over the elements: projecting
rows and then batching equals batching and then projecting each batch. -/
theorem chunkList_map {α β : Type} (B : Nat) (g : α → β) (l : List α) :
    chunkList B (l.map g) = (chunkList B l).map (List.map g) :=
  chunkList_map_aux B g l.length l le_rfl

/-- Rows kept by the limit are rows of the file. -/
theorem mem_of_mem_limitRows {L : Nat} {rows : List (List String)}
    {r : List String} (h : r ∈ limitRows L rows) : r ∈ rows := by
  rw [limitRows] at h
  split at h
  · exact h
  · exact List.mem_of_mem_take h

/-- Limiting an empty row sequence yields an empty row sequence. -/
theorem limitRows_nil (L : Nat) : limitRows L [] = [] := by
  rw [limitRows]
  split <;> simp

/-! Concrete fixtures used by the witnesses. -/

/-- A sample logical field used by concrete fixtures. -/
def sampleField (n : String) : PField :=
  { name := n, data_type := "Int64", nullable := true }

/-- A sample 3-column, 10-row file matching the worked example in spec §8. -/
def sampleFile : ParquetFile where
  schema := [sampleField "a", sampleField "b", sampleField "c"]
  rows := List.replicate 10 ["u", "v", "w"]
  file_size := 2048
  total_row_groups := 1
  version := 2
  created_by := some "writer"
  key_value := []
  rows_wf := by decide

/-- A file system on which every path resolves to the sample file. -/
def sampleFS : FileSystem := fun _ => some sampleFile

/-- A file system on which no path can be opened. -/
def emptyFS : FileSystem := fun _ => none

/-- A minimal 1-column, 1-row file. -/
def tinyFile : ParquetFile where
  schema := [sampleField "a"]
  rows := [["v"]]
  file_size := 64
  total_row_groups := 1
  version := 1
  created_by := none
  key_value := []
  rows_wf := by decide

/-- A file system on which every path resolves to the minimal file. -/
def tinyFS : FileSystem := fun _ => some tinyFile

/-- The record-batch array produced by reading the minimal file with batch
size 1 and no limit. -/
def tinyArr : CRecordBatchArray :=
  { batches := [{ json := [["v"]], num_rows := 1, num_columns := 1 }],
    count := 1 }

/-- A valid file holding zero rows. -/
def noRowsFile : ParquetFile where
  schema := [sampleField "a"]
  rows := []
  file_size := 16
  total_row_groups := 0
  version := 1
  created_by := none
  key_value := []
  rows_wf := by decide

/-- A file system on which every path resolves to the zero-row file. -/
def noRowsFS : FileSystem := fun _ => some noRowsFile

/-! The claims. -/

/-- C1: for every valid columnar file and every call to
`parquet_viewer_read_data` with `limit = L > 0`, the sum of `num_rows` over
all batches of the returned `CRecordBatchArray` equals
`min L (total rows of the file)`: the batch holding the limit boundary is
truncated so the limit is respected exactly. -/
theorem C1_read_data_limit_sum (fs : FileSystem) (file_path : String)
    (f : ParquetFile) (batch_size L : Nat) (err : Option String)
    (hf : fs file_path = some f) (hL : 0 < L) :
    ∃ arr : CRecordBatchArray,
      (parquet_viewer_read_data fs file_path batch_size L err).1 = some arr ∧
      (arr.batches.map CRecordBatch.num_rows).sum = min L f.rows.length := by
  simp only [parquet_viewer_read_data, hf]
  refine ⟨_, rfl, ?_⟩
  rw [List.map_map]
  have hcomp : CRecordBatch.num_rows ∘ mkCRecordBatch f.schema.length =
      List.length := rfl
  rw [hcomp, chunkList_sum_length, limitRows,
    if_neg (Nat.pos_iff_ne_zero.mp hL), List.length_take]

/-- Witness for C1 at the worked example of spec §8: a 3-column, 10-row file
read with batch size 4 and limit 7. -/
theorem C1_read_data_limit_sum_witness :
    ∃ arr : CRecordBatchArray,
      (parquet_viewer_read_data sampleFS "sample.parquet" 4 7 none).1 =
        some arr ∧
      (arr.batches.map CRecordBatch.num_rows).sum =
        min 7 sampleFile.rows.length :=
  C1_read_data_limit_sum sampleFS "sample.parquet" sampleFile 4 7 none rfl
    (by decide)

/-- C3: for every call to `parquet_viewer_read_data` with
`batch_size = B > 0` on a valid file, every returned batch has
`num_rows ≤ B`, every batch before the last has `num_rows = B` (only the
last may be shorter), and the rows, flattened back out of the batches, are
the file's rows in file order (up to the limit). -/
theorem C3_read_data_batch_bound (fs : FileSystem) (file_path : String)
    (f : ParquetFile) (B L : Nat) (err : Option String)
    (hf : fs file_path = some f) (hB : 0 < B) :
    ∃ arr : CRecordBatchArray,
      (parquet_viewer_read_data fs file_path B L err).1 = some arr ∧
      (∀ b ∈ arr.batches, b.num_rows ≤ B) ∧
      (∀ (i : Nat) (b : CRecordBatch), i + 1 < arr.batches.length →
        arr.batches.get? i = some b → b.num_rows = B) ∧
      (arr.batches.map CRecordBatch.json).flatten = limitRows L f.rows := by
  have hEB : effectiveBatchSize B = B := by
    rw [effectiveBatchSize, if_neg (Nat.pos_iff_ne_zero.mp hB)]
  simp only [parquet_viewer_read_data, hf, hEB]
  refine ⟨_, rfl, ?_, ?_, ?_⟩
  · intro b hb
    obtain ⟨c, hc, rfl⟩ := List.mem_map.mp hb
    exact chunkList_length_le hB _ c hc
  · intro i b hi hget
    rw [List.length_map] at hi
    rw [List.get?_map] at hget
    obtain ⟨c, hgc, hbc⟩ := Option.map_eq_some'.mp hget
    subst hbc
    exact chunkList_get_full hB _ i c hi hgc
  · rw [List.map_map]
    have hcomp : CRecordBatch.json ∘ mkCRecordBatch f.schema.length = id := rfl
    rw [hcomp, List.map_id, chunkList_join]

/-- Witness for C3 at the worked example of spec §8. -/
theorem C3_read_data_batch_bound_witness :
    ∃ arr : CRecordBatchArray,
      (parquet_viewer_read_data sampleFS "sample.parquet" 4 7 none).1 =
        some arr ∧
      (∀ b ∈ arr.batches, b.num_rows ≤ 4) ∧
      (∀ (i : Nat) (b : CRecordBatch), i + 1 < arr.batches.length →
        arr.batches.get? i = some b → b.num_rows = 4) ∧
      (arr.batches.map CRecordBatch.json).flatten =
        limitRows 7 sampleFile.rows :=
  C3_read_data_batch_bound sampleFS "sample.parquet" sampleFile 4 7 none rfl
    (by decide)

/-- C6: for every valid file, the `num_fields` of the schema returned by
`parquet_viewer_read_schema` equals the `total_fields` of the metadata
returned by `parquet_viewer_read_metadata` on the same file. -/
theorem C6_field_counts_agree (fs : FileSystem) (file_path : String)
    (f : ParquetFile) (err1 err2 : Option String)
    (hf : fs file_path = some f) :
    ∃ (s : CSchema) (m : CFileMetadata),
      (parquet_viewer_read_schema fs file_path err1).1 = some s ∧
      (parquet_viewer_read_metadata fs file_path err2).1 = some m ∧
      s.num_fields = m.total_fields := by
  simp only [parquet_viewer_read_schema, parquet_viewer_read_metadata, hf]
  exact ⟨_, _, rfl, rfl, rfl⟩

/-- Witness for C6 on the sample file. -/
theorem C6_field_counts_agree_witness :
    ∃ (s : CSchema) (m : CFileMetadata),
      (parquet_viewer_read_schema sampleFS "sample.parquet" none).1 =
        some s ∧
      (parquet_viewer_read_metadata sampleFS "sample.parquet" none).1 =
        some m ∧
      s.num_fields = m.total_fields :=
  C6_field_counts_agree sampleFS "sample.parquet" sampleFile none none rfl

/-- C9: each of the three release operations, called with an absent/null
handle, is a no-op: it returns with the live-handle collection and the error
slot unchanged. -/
theorem C9_free_null_noop (s1 : LiveState CSchema)
    (s2 : LiveState CFileMetadata) (s3 : LiveState CRecordBatchArray) :
    parquet_viewer_free_schema none s1 = s1 ∧
    parquet_viewer_free_metadata none s2 = s2 ∧
    parquet_viewer_free_data none s3 = s3 :=
  ⟨rfl, rfl, rfl⟩

/-- C10: every `CField` of a schema returned by a successful
`parquet_viewer_read_schema` call carries a `nullable` flag that is exactly
0 or 1, even though the header declares the field as a full-width `int`. -/
theorem C10_nullable_flag (fs : FileSystem) (file_path : String)
    (err : Option String) (s : CSchema)
    (hs : (parquet_viewer_read_schema fs file_path err).1 = some s) :
    ∀ fld ∈ s.fields, fld.nullable = 0 ∨ fld.nullable = 1 := by
  rw [parquet_viewer_read_schema] at hs
  cases hfs : fs file_path with
  | none => rw [hfs] at hs; simp at hs
  | some f =>
    rw [hfs] at hs
    simp only [Option.some.injEq] at hs
    subst hs
    intro fld hfld
    rw [mkCSchema] at hfld
    simp only [List.mem_map] at hfld
    obtain ⟨p, hp, rfl⟩ := hfld
    rw [mkCField]
    by_cases hn : p.nullable <;> simp [hn]

/-- Witness for C10 on the first field of the sample file's schema. -/
theorem C10_nullable_flag_witness :
    (mkCField (sampleField "a")).nullable = 0 ∨
    (mkCField (sampleField "a")).nullable = 1 :=
  C10_nullable_flag sampleFS "sample.parquet" none
    (mkCSchema sampleFile.schema) rfl (mkCField (sampleField "a"))
    (by decide)

/-- C2: whenever some element of `column_indices` lies outside
`[0, num_fields)` for the file's schema, `parquet_viewer_read_data_with_projection`
returns an absent result together with a non-absent error text retrievable
through `parquet_viewer_get_last_error`; the index check is performed before
any row decoding, so no partial `CRecordBatchArray` is ever produced. -/
theorem C2_projection_index_out_of_range (fs : FileSystem)
    (file_path : String) (f : ParquetFile) (column_indices : List Nat)
    (B L : Nat) (err : Option String) (hf : fs file_path = some f)
    (hbad : ∃ i ∈ column_indices, f.schema.length ≤ i) :
    (parquet_viewer_read_data_with_projection fs file_path column_indices
      B L err).1 = none ∧
    (parquet_viewer_get_last_error
      ((parquet_viewer_read_data_with_projection fs file_path column_indices
        B L err).2)).isSome = true := by
  have hnot : ¬ ∀ x ∈ column_indices, x < f.schema.length := by
    obtain ⟨i, hi, hge⟩ := hbad
    intro h
    have := h i hi
    omega
  simp [parquet_viewer_read_data_with_projection, hf,
    parquet_viewer_get_last_error, hnot]

/-- Witness for C2: index 3 against the 3-column sample file. -/
theorem C2_projection_index_out_of_range_witness :
    (parquet_viewer_read_data_with_projection sampleFS "sample.parquet"
      [3] 4 0 none).1 = none ∧
    (parquet_viewer_get_last_error
      ((parquet_viewer_read_data_with_projection sampleFS "sample.parquet"
        [3] 4 0 none).2)).isSome = true :=
  C2_projection_index_out_of_range sampleFS "sample.parquet" sampleFile
    [3] 4 0 none rfl ⟨3, by decide, by decide⟩

/-- C4: for each of the four read operations, whenever the operation fails
(returns an absent result) the error slot holds a human-readable description
retrievable through `parquet_viewer_get_last_error`; no partially constructed
structure is ever returned, absence being the only failure shape. -/
theorem C4_failure_yields_error (fs : FileSystem) (file_path : String)
    (column_indices : List Nat) (B L : Nat) (err : Option String) :
    ((parquet_viewer_read_schema fs file_path err).1 = none →
      (parquet_viewer_get_last_error
        ((parquet_viewer_read_schema fs file_path err).2)).isSome = true) ∧
    ((parquet_viewer_read_metadata fs file_path err).1 = none →
      (parquet_viewer_get_last_error
        ((parquet_viewer_read_metadata fs file_path err).2)).isSome = true) ∧
    ((parquet_viewer_read_data fs file_path B L err).1 = none →
      (parquet_viewer_get_last_error
        ((parquet_viewer_read_data fs file_path B L err).2)).isSome = true) ∧
    ((parquet_viewer_read_data_with_projection fs file_path column_indices
        B L err).1 = none →
      (parquet_viewer_get_last_error
        ((parquet_viewer_read_data_with_projection fs file_path
          column_indices B L err).2)).isSome = true) := by
  cases hfs : fs file_path with
  | none =>
    refine ⟨?_, ?_, ?_, ?_⟩ <;>
      simp [parquet_viewer_read_schema, parquet_viewer_read_metadata,
        parquet_viewer_read_data, parquet_viewer_read_data_with_projection,
        parquet_viewer_get_last_error, hfs]
  | some f =>
    refine ⟨?_, ?_, ?_, ?_⟩
    · simp [parquet_viewer_read_schema, hfs]
    · simp [parquet_viewer_read_metadata, hfs]
    · simp [parquet_viewer_read_data, hfs]
    · by_cases hall : column_indices.all
          (fun i => decide (i < f.schema.length)) = true
      · simp [parquet_viewer_read_data_with_projection, hfs, hall]
      · simp [parquet_viewer_read_data_with_projection,
          parquet_viewer_get_last_error, hfs, hall]

/-- Witness for C4: all four operations on an unopenable path. -/
theorem C4_failure_yields_error_witness :
    (parquet_viewer_get_last_error
      ((parquet_viewer_read_schema emptyFS "missing.parquet" none).2)).isSome
        = true ∧
    (parquet_viewer_get_last_error
      ((parquet_viewer_read_metadata emptyFS "missing.parquet" none).2)).isSome
        = true ∧
    (parquet_viewer_get_last_error
      ((parquet_viewer_read_data emptyFS "missing.parquet" 4 0 none).2)).isSome
        = true ∧
    (parquet_viewer_get_last_error
      ((parquet_viewer_read_data_with_projection emptyFS "missing.parquet"
        [0] 4 0 none).2)).isSome = true :=
  ⟨(C4_failure_yields_error emptyFS "missing.parquet" [0] 4 0 none).1 rfl,
   (C4_failure_yields_error emptyFS "missing.parquet" [0] 4 0 none).2.1 rfl,
   (C4_failure_yields_error emptyFS "missing.parquet" [0] 4 0 none).2.2.1 rfl,
   (C4_failure_yields_error emptyFS "missing.parquet" [0] 4 0 none).2.2.2 rfl⟩

/-- C5: for every valid file and in-range single-column projection
`column_indices = [i]`, every record of every batch returned by
`parquet_viewer_read_data_with_projection` has exactly one field, and the
projected batches are exactly the batches of the unprojected
`parquet_viewer_read_data` of the same file with every row reduced to its
column `i`. -/
theorem C5_single_column_projection (fs : FileSystem) (file_path : String)
    (f : ParquetFile) (i B L : Nat) (err : Option String)
    (hf : fs file_path = some f) (hi : i < f.schema.length) :
    ∃ arr arrP : CRecordBatchArray,
      (parquet_viewer_read_data fs file_path B L err).1 = some arr ∧
      (parquet_viewer_read_data_with_projection fs file_path [i]
        B L err).1 = some arrP ∧
      (∀ b ∈ arrP.batches, ∀ r ∈ b.json, r.length = 1) ∧
      arrP.batches = arr.batches.map (fun b =>
        { json := b.json.map (fun r => [r.getD i ""]),
          num_rows := b.num_rows, num_columns := 1 }) := by
  have hall : ([i].all (fun j => decide (j < f.schema.length))) = true := by
    simp [hi]
  simp only [parquet_viewer_read_data,
    parquet_viewer_read_data_with_projection, hf, if_pos hall]
  refine ⟨_, _, rfl, rfl, ?_, ?_⟩
  · intro b hb r hr
    obtain ⟨c, hc, rfl⟩ := List.mem_map.mp hb
    have hr2 : r ∈ (limitRows L f.rows).map (projectRow [i]) :=
      mem_of_mem_chunkList hc hr
    obtain ⟨row, hrow, rfl⟩ := List.mem_map.mp hr2
    rw [projectRow]
    rfl
  · rw [chunkList_map, List.map_map, List.map_map]
    refine List.map_congr_left ?_
    intro c hc
    simp [mkCRecordBatch, projectRow]

/-- Witness for C5: projecting column 1 of the 3-column sample file. -/
theorem C5_single_column_projection_witness :
    ∃ arr arrP : CRecordBatchArray,
      (parquet_viewer_read_data sampleFS "sample.parquet" 4 0 none).1 =
        some arr ∧
      (parquet_viewer_read_data_with_projection sampleFS "sample.parquet"
        [1] 4 0 none).1 = some arrP ∧
      (∀ b ∈ arrP.batches, ∀ r ∈ b.json, r.length = 1) ∧
      arrP.batches = arr.batches.map (fun b =>
        { json := b.json.map (fun r => [r.getD 1 ""]),
          num_rows := b.num_rows, num_columns := 1 }) :=
  C5_single_column_projection sampleFS "sample.parquet" sampleFile 1 4 0 none
    rfl (by decide)

/-- C7: every `CRecordBatch` produced by a successful `read_data` or
`read_data_with_projection` call has a payload that parses to exactly
`num_rows` records, each holding exactly `num_columns` fields. -/
theorem C7_batch_payload_counts (fs : FileSystem) (file_path : String)
    (column_indices : List Nat) (B L : Nat) (err : Option String)
    (arr arrP : CRecordBatchArray)
    (h1 : (parquet_viewer_read_data fs file_path B L err).1 = some arr)
    (h2 : (parquet_viewer_read_data_with_projection fs file_path
      column_indices B L err).1 = some arrP) :
    (∀ b ∈ arr.batches, b.json.length = b.num_rows ∧
      ∀ r ∈ b.json, r.length = b.num_columns) ∧
    (∀ b ∈ arrP.batches, b.json.length = b.num_rows ∧
      ∀ r ∈ b.json, r.length = b.num_columns) := by
  cases hfs : fs file_path with
  | none =>
    rw [parquet_viewer_read_data, hfs] at h1
    simp at h1
  | some f =>
    simp only [parquet_viewer_read_data, hfs, Option.some.injEq] at h1
    subst h1
    simp only [parquet_viewer_read_data_with_projection, hfs] at h2
    by_cases hall : column_indices.all
        (fun i => decide (i < f.schema.length)) = true
    · rw [if_pos hall] at h2
      simp only [Option.some.injEq] at h2
      subst h2
      constructor
      · intro b hb
        obtain ⟨c, hc, rfl⟩ := List.mem_map.mp hb
        refine ⟨rfl, ?_⟩
        intro r hr
        have hr2 : r ∈ limitRows L f.rows := mem_of_mem_chunkList hc hr
        exact f.rows_wf r (mem_of_mem_limitRows hr2)
      · intro b hb
        obtain ⟨c, hc, rfl⟩ := List.mem_map.mp hb
        refine ⟨rfl, ?_⟩
        intro r hr
        have hr2 : r ∈ (limitRows L f.rows).map (projectRow column_indices) :=
          mem_of_mem_chunkList hc hr
        obtain ⟨row, hrow, rfl⟩ := List.mem_map.mp hr2
        rw [projectRow]
        exact List.length_map _ _
    · rw [if_neg hall] at h2
      simp at h2

/-- Witness for C7: the minimal 1-column, 1-row file read with batch size 1,
unprojected and projected to its single column. -/
theorem C7_batch_payload_counts_witness :
    (∀ b ∈ tinyArr.batches, b.json.length = b.num_rows ∧
      ∀ r ∈ b.json, r.length = b.num_columns) ∧
    (∀ b ∈ tinyArr.batches, b.json.length = b.num_rows ∧
      ∀ r ∈ b.json, r.length = b.num_columns) :=
  C7_batch_payload_counts tinyFS "tiny.arrow" [0] 1 0 none tinyArr tinyArr
    (by simp [parquet_viewer_read_data, tinyFS, tinyFile, effectiveBatchSize,
      limitRows, chunkList_cons, chunkList_nil, mkCRecordBatch, tinyArr])
    (by simp [parquet_viewer_read_data_with_projection, tinyFS, tinyFile,
      effectiveBatchSize, limitRows, chunkList_cons, chunkList_nil,
      mkCRecordBatch, projectRow, tinyArr])

/-- C8: every successful `read_data` or `read_data_with_projection` call
returns a non-absent `CRecordBatchArray` whose `count` equals the length of
its batch sequence; the sequence may be empty — a valid file with zero rows
yields a non-absent array with `count = 0`. -/
theorem C8_success_container (fs : FileSystem) (file_path : String)
    (f : ParquetFile) (column_indices : List Nat) (B L : Nat)
    (err : Option String) (hf : fs file_path = some f)
    (hidx : ∀ i ∈ column_indices, i < f.schema.length) :
    (∃ arr : CRecordBatchArray,
      (parquet_viewer_read_data fs file_path B L err).1 = some arr ∧
      arr.count = arr.batches.length ∧ (f.rows = [] → arr.count = 0)) ∧
    (∃ arrP : CRecordBatchArray,
      (parquet_viewer_read_data_with_projection fs file_path column_indices
        B L err).1 = some arrP ∧
      arrP.count = arrP.batches.length ∧ (f.rows = [] → arrP.count = 0)) := by
  have hall : column_indices.all
      (fun i => decide (i < f.schema.length)) = true := by
    rw [List.all_eq_true]
    intro i hi
    simpa using hidx i hi
  simp only [parquet_viewer_read_data,
    parquet_viewer_read_data_with_projection, hf, if_pos hall]
  constructor
  · refine ⟨_, rfl, ?_, ?_⟩
    · rw [List.length_map]
    · intro h0
      rw [h0, limitRows_nil, chunkList_nil, List.length_nil]
  · refine ⟨_, rfl, ?_, ?_⟩
    · rw [List.length_map]
    · intro h0
      rw [h0, limitRows_nil, List.map_nil, chunkList_nil, List.length_nil]

/-- Witness for C8 on the valid zero-row file, exercising the empty batch
sequence. -/
theorem C8_success_container_witness :
    (∃ arr : CRecordBatchArray,
      (parquet_viewer_read_data noRowsFS "empty.parquet" 3 0 none).1 =
        some arr ∧
      arr.count = arr.batches.length ∧
      (noRowsFile.rows = [] → arr.count = 0)) ∧
    (∃ arrP : CRecordBatchArray,
      (parquet_viewer_read_data_with_projection noRowsFS "empty.parquet"
        [0] 3 0 none).1 = some arrP ∧
      arrP.count = arrP.batches.length ∧
      (noRowsFile.rows = [] → arrP.count = 0)) :=
  C8_success_container noRowsFS "empty.parquet" noRowsFile [0] 3 0 none rfl
    (by decide)

end ParquetViewer
